import Mathlib

/-!
Verification development for the tick-data loader and OHLC candle builder of
`sample_data/realtime_simulation/data_loader.py` (TradingBook repository).

The Python module is shallowly embedded:
* timestamps are whole seconds since the epoch, modelled as `Int`
  (a `datetime` compares exactly like its epoch-second value, and every
  operation in the source works at second granularity or coarser);
* prices/bids/asks/spreads are modelled as `Int` (the source only copies
  and compares them with `max`/`min`, which is order-isomorphic to the
  float behaviour on the finite values the store holds);
* volumes are `Nat` (the generators only produce non-negative volumes);
* a pandas `DataFrame` of ticks is a `List Tick` in row order;
* each CSV chunk file is carried inside its `ChunkInfo` descriptor as the
  `ticks` field (the contents of the file named `filename`);
* `pandas.sort_values('timestamp')` is `List.insertionSort` by timestamp;
* the `stream_ticks` generator is the finite list of the batches it yields.
-/

/-- A tick record: one row of `tick_data` / of a chunk CSV
(columns `timestamp, price, bid, ask, spread, volume, session`). -/
structure Tick where
  timestamp : Int
  price : Int
  bid : Int
  ask : Int
  spread : Int
  volume : Nat
  session : String
deriving DecidableEq, Repr

/-- `ChunkInfo` from `data_loader.py`, with the contents of the chunk file
(`filename`) embedded as `ticks`. -/
structure ChunkInfo where
  filename : String
  start_timestamp : Int
  end_timestamp : Int
  records : Nat
  ticks : List Tick
deriving DecidableEq, Repr

/-- The mutable state of a `TickDataLoader` in CSV (partitioned) mode:
`_chunks`, `cache_size`, `_cache`, `_cache_start`, `_cache_end`. -/
structure LoaderState where
  chunks : List ChunkInfo
  cacheSize : Nat
  cache : List Tick
  cacheStart : Option Int
  cacheEnd : Option Int
deriving DecidableEq, Repr

/-- Timestamp (non-strict) ordering on ticks, the key of
`sort_values('timestamp')` and SQL `ORDER BY timestamp`. -/
def tsLE (a b : Tick) : Prop := a.timestamp ≤ b.timestamp

instance : DecidableRel tsLE := fun a b => inferInstanceAs (Decidable (a.timestamp ≤ b.timestamp))

instance : IsTotal Tick tsLE := ⟨fun a b => Int.le_total a.timestamp b.timestamp⟩

instance : IsTrans Tick tsLE := ⟨fun _ _ _ h h' => le_trans h h'⟩

instance : IsRefl Tick tsLE := ⟨fun a => le_refl a.timestamp⟩

/-- Sort a tick list ascending by timestamp (`sort_values('timestamp')`). -/
def sortTs (l : List Tick) : List Tick := List.insertionSort tsLE l

/-- The row filter `timestamp >= start AND timestamp <= end` (both the SQL
`WHERE` clause and the pandas mask are inclusive on both ends). -/
def inRangeB (s e : Int) (t : Tick) : Bool := decide (s ≤ t.timestamp) && decide (t.timestamp ≤ e)

/-- Python's `if limit: df = df.head(limit)`: a `None` (or falsy `0`) limit
returns everything. -/
def applyLimit (limit : Option Nat) (l : List Tick) : List Tick :=
  match limit with
  | none => l
  | some 0 => l
  | some n => l.take n

/-- `df['timestamp'].min()`: `none` models pandas' `NaN` on an empty frame. -/
def minTs? (l : List Tick) : Option Int :=
  match l.map Tick.timestamp with
  | [] => none
  | x :: xs => some (xs.foldl min x)

/-- `df['timestamp'].max()`: `none` models pandas' `NaN` on an empty frame. -/
def maxTs? (l : List Tick) : Option Int :=
  match l.map Tick.timestamp with
  | [] => none
  | x :: xs => some (xs.foldl max x)

/-- The chunks selected by `_load_cache_csv`:
`chunk.start_timestamp <= end and chunk.end_timestamp >= start`. -/
def relevantChunks (chunks : List ChunkInfo) (s e : Int) : List ChunkInfo :=
  chunks.filter fun c => decide (c.start_timestamp ≤ e) && decide (s ≤ c.end_timestamp)

/-- `TickDataLoader._load_cache_csv(start, end)`.

When no chunk overlaps the range the method clears `_cache` and returns
early, leaving `_cache_start`/`_cache_end` untouched.  Otherwise each
relevant chunk is read, filtered to the range, the frames are concatenated,
sorted by timestamp, truncated to `cache_size`, and the bounds are recomputed
from the truncated cache (`none` models the `NaN` min/max of an empty frame).
(In the source, `dfs` is non-empty exactly when `relevant_chunks` is, so the
final `else` branch there is unreachable and is not modelled.) -/
def load_cache_csv (st : LoaderState) (s e : Int) : LoaderState :=
  let relevant := relevantChunks st.chunks s e
  if relevant.isEmpty then { st with cache := [] }
  else
    let dfs := relevant.map fun c => c.ticks.filter (inRangeB s e)
    let cache := (sortTs dfs.flatten).take st.cacheSize
    { st with cache := cache, cacheStart := minTs? cache, cacheEnd := maxTs? cache }

/-- `TickDataLoader.get_ticks_range(start, end, limit)` in CSV mode: reloads
the shared cache for the requested span, filters it to the range once more,
and applies the caller's row limit.  Returns the result together with the
mutated loader state. -/
def get_ticks_range_csv (st : LoaderState) (s e : Int) (limit : Option Nat) :
    List Tick × LoaderState :=
  let st' := load_cache_csv st s e
  let df := st'.cache.filter (inRangeB s e)
  (applyLimit limit df, st')

/-- `TickDataLoader.get_ticks_range(start, end, limit)` in SQLite mode: a
direct bounded query over the single ordered table (modelled as the list of
its rows), `ORDER BY timestamp`, `LIMIT` applied only when truthy. -/
def get_ticks_range_db (table : List Tick) (s e : Int) (limit : Option Nat) : List Tick :=
  applyLimit limit (sortTs (table.filter (inRangeB s e)))

/-- The cache-miss test at the top of `get_tick_at`:
`self._cache.empty or timestamp < self._cache_start or timestamp > self._cache_end`.
(When the cache is non-empty the bounds are always set; the `none` fallback
arm is unreachable from states the loader actually produces.) -/
def needsReload (st : LoaderState) (t : Int) : Bool :=
  st.cache.isEmpty ||
    (match st.cacheStart, st.cacheEnd with
     | some s, some e => decide (t < s) || decide (e < t)
     | _, _ => true)

/-- The cache-ensuring step of `get_tick_at`: on a miss, reload centered on
the timestamp with 30 minutes of look-back and 2 hours of look-ahead. -/
def ensure_covered (st : LoaderState) (t : Int) : LoaderState :=
  if needsReload st t then load_cache_csv st (t - 1800) (t + 7200) else st

/-- `TickDataLoader.get_tick_at(timestamp)` in CSV mode.  Returns the result,
the mutated state, and the number of chunk files read from the store
(0 when the cache already covered the timestamp). -/
def get_tick_at (st : LoaderState) (t : Int) : Option Tick × LoaderState × Nat :=
  let st' := ensure_covered st t
  let reads := if needsReload st t then (relevantChunks st.chunks (t - 1800) (t + 7200)).length else 0
  if st'.cache.isEmpty then (none, st', reads)
  else
    let sel := st'.cache.filter fun u => decide (u.timestamp ≤ t)
    match sel.getLast? with
    | none => (none, st', reads)
    | some r => (some r, st', reads)

/-- `max` of the `timestamp` column of a non-empty batch
(`batch['timestamp'].max()`); 0 is returned for the empty frame, which the
source never queries. -/
def maxTs : List Tick → Int
  | [] => 0
  | t :: r => r.foldl (fun a u => max a u.timestamp) t.timestamp

/-- The inner `for i in range(0, len(self._cache), batch_size)` loop of
`stream_ticks`: slices the cache into `batch_size`-row batches; a batch
reaching past `end` is clipped to `end`, yielded if non-empty, and the
generator returns (second component `true`). A zero batch size would raise
`ValueError` in Python; it yields nothing here.  The recursion is paced by
a fuel argument so the definition stays structural; since each step drops
`bs ≥ 1` rows, fuel equal to the cache length is always enough. -/
def yieldBatchesAux (endT : Int) (bs : Nat) : Nat → List Tick → List (List Tick) × Bool
  | _, [] => ([], false)
  | 0, _ :: _ => ([], false)
  | fuel + 1, t :: rest =>
    if bs = 0 then ([], false)
    else
      let cache := t :: rest
      let batch := cache.take bs
      if maxTs batch > endT then
        let clipped := batch.filter fun u => decide (u.timestamp ≤ endT)
        (if clipped.isEmpty then [] else [clipped], true)
      else
        let pr := yieldBatchesAux endT bs fuel (cache.drop bs)
        (batch :: pr.1, pr.2)

/-- The batch loop of `stream_ticks` over a loaded cache. -/
def yieldBatches (endT : Int) (bs : Nat) (cache : List Tick) : List (List Tick) × Bool :=
  yieldBatchesAux endT bs cache.length cache

/-- The outer `while current < end` loop of `stream_ticks`, fuel-bounded.
Each iteration loads `[current, min(current+60min, end)]` into the cache,
stops if it is empty, yields the batches, and advances `current` to one
second past the loaded cache's end.  Since the loaded cache only holds
ticks in `[current, buffer_end]`, `current` advances by at least one second
per iteration, so `(end - start) + 1` units of fuel make the bound
unreachable: the fuelled function agrees with the Python generator on every
input. -/
def streamAux (endT : Int) (bs : Nat) : Nat → LoaderState → Int → List (List Tick)
  | 0, _, _ => []
  | fuel + 1, st, current =>
    if current < endT then
      let st' := load_cache_csv st current (min (current + 3600) endT)
      if st'.cache.isEmpty then []
      else
        let pr := yieldBatches endT bs st'.cache
        if pr.2 then pr.1
        else pr.1 ++ streamAux endT bs fuel st' (st'.cacheEnd.getD endT + 1)
    else []

/-- `TickDataLoader.stream_ticks(start, end, batch_size)` in CSV mode, as the
finite list of yielded batches. -/
def stream_ticks (st : LoaderState) (startT endT : Int) (bs : Nat) : List (List Tick) :=
  streamAux endT bs ((endT - startT).toNat + 1) st startT

/-- One OHLC candle dictionary of `OHLCBuilder`
(`timestamp` is the bucket start; `open` is spelled `open_` because `open`
is a Lean keyword). -/
structure Candle where
  timestamp : Int
  open_ : Int
  high : Int
  low : Int
  close : Int
  volume : Nat
  tick_count : Nat
deriving DecidableEq, Repr

/-- The mutable state of an `OHLCBuilder`: `_timeframe_seconds`,
`_current_candle`, `_current_candle_start`, `_completed_candles`. -/
structure BuilderState where
  timeframe_seconds : Nat
  current_candle : Option Candle
  current_candle_start : Option Int
  completed_candles : List Candle
deriving DecidableEq, Repr

/-- `OHLCBuilder._max_candles` (retention cap of the sealed-bar history). -/
def max_candles : Nat := 500

/-- A fresh builder (`OHLCBuilder.__init__` / `reset`), with the timeframe
already resolved to seconds by `_parse_timeframe`. -/
def init_builder (tf : Nat) : BuilderState :=
  { timeframe_seconds := tf, current_candle := none, current_candle_start := none,
    completed_candles := [] }

/-- `OHLCBuilder._get_candle_start(timestamp)`: truncate the time-of-day
seconds to a multiple of the timeframe and rebuild the datetime on the same
calendar day (`timestamp.replace(hour=…, minute=…, second=…, microsecond=0)`
= the day's midnight plus `hours*3600 + minutes*60 + secs`). -/
def get_candle_start (tf : Nat) (ts : Int) : Int :=
  let seconds : Nat := (ts.emod 86400).toNat
  let candle_seconds := seconds / tf * tf
  let hours := candle_seconds / 3600
  let minutes := candle_seconds % 3600 / 60
  let secs := candle_seconds % 60
  ts - ts.emod 86400 + (hours * 3600 + minutes * 60 + secs : Nat)

/-- The candle opened by the first tick of a bucket. -/
def newCandle (cs : Int) (tk : Tick) : Candle :=
  { timestamp := cs, open_ := tk.price, high := tk.price, low := tk.price,
    close := tk.price, volume := tk.volume, tick_count := 1 }

/-- The in-place update of the current candle by a same-bucket tick. -/
def updateCandle (cur : Candle) (tk : Tick) : Candle :=
  { cur with
    high := max cur.high tk.price,
    low := min cur.low tk.price,
    close := tk.price,
    volume := cur.volume + tk.volume,
    tick_count := cur.tick_count + 1 }

/-- `OHLCBuilder.add_tick(tick)`.  Returns the sealed candle (if the tick
rolled the bucket over) and the new builder state; the Python return value
`(completed_candle, current_candle)` is `(fst, snd.current_candle)`.
`_current_candle` and `_current_candle_start` are always both set or both
`None` in the source, so only those two shapes are distinguished. -/
def add_tick (st : BuilderState) (tk : Tick) : Option Candle × BuilderState :=
  let cs := get_candle_start st.timeframe_seconds tk.timestamp
  match st.current_candle, st.current_candle_start with
  | some cur, some curStart =>
    if cs > curStart then
      let completed := st.completed_candles ++ [cur]
      let trimmed :=
        if completed.length > max_candles then completed.drop (completed.length - max_candles)
        else completed
      (some cur,
        { st with
          current_candle := some (newCandle cs tk),
          current_candle_start := some cs,
          completed_candles := trimmed })
    else
      (none, { st with current_candle := some (updateCandle cur tk) })
  | _, _ =>
    (none,
      { st with
        current_candle := some (newCandle cs tk),
        current_candle_start := some cs })

/-- `OHLCBuilder.get_candles(include_current)` as a list of candles. -/
def get_candles (st : BuilderState) (includeCurrent : Bool) : List Candle :=
  st.completed_candles ++ (if includeCurrent then st.current_candle.toList else [])

/-- Feed a list of ticks through `add_tick`, collecting the final state and
the sealed candles in the order they were emitted. -/
def runEmit (st : BuilderState) : List Tick → BuilderState × List Candle
  | [] => (st, [])
  | tk :: rest =>
    let p := add_tick st tk
    let r := runEmit p.2 rest
    (r.1, p.1.toList ++ r.2)

/-- The builder state after feeding a list of ticks. -/
def run_from (st : BuilderState) (l : List Tick) : BuilderState := (runEmit st l).1

/-- The builder state after feeding a list of ticks to a fresh builder. -/
def run_builder (tf : Nat) (l : List Tick) : BuilderState := run_from (init_builder tf) l

/-- All candles sealed while feeding a list of ticks to a fresh builder. -/
def sealed_emitted (tf : Nat) (l : List Tick) : List Candle := (runEmit (init_builder tf) l).2

/-- The last `n` elements of a list (`l[-n:]`). -/
def lastN (n : Nat) (l : List α) : List α := l.drop (l.length - n)

/-- The OHLC consistency invariant of a candle. -/
def GoodCandle (c : Candle) : Prop :=
  c.low ≤ c.open_ ∧ c.open_ ≤ c.high ∧ c.low ≤ c.close ∧ c.close ≤ c.high

instance : DecidablePred GoodCandle := fun c =>
  inferInstanceAs
    (Decidable (c.low ≤ c.open_ ∧ c.open_ ≤ c.high ∧ c.low ≤ c.close ∧ c.close ≤ c.high))

/-- Strict timestamp ordering on ticks. -/
def tsLT (a b : Tick) : Prop := a.timestamp < b.timestamp

instance : DecidableRel tsLT := fun a b => inferInstanceAs (Decidable (a.timestamp < b.timestamp))

instance : IsTrans Tick tsLT := ⟨fun _ _ _ h h' => lt_trans h h'⟩

/-- Strict ordering of chunk spans: the first ends before the second starts. -/
def chunkLT (c d : ChunkInfo) : Prop := c.end_timestamp < d.start_timestamp

instance : DecidableRel chunkLT := fun c d =>
  inferInstanceAs (Decidable (c.end_timestamp < d.start_timestamp))

/-- A well-formed chunk: rows strictly increasing in time and contained in
the chunk's declared `[start_timestamp, end_timestamp]` span.
(`Chain'` is equivalent to `Pairwise` for the transitive `tsLT` but checks
in linear time on concrete stores.) -/
def wfChunk (c : ChunkInfo) : Prop :=
  c.start_timestamp ≤ c.end_timestamp ∧
    List.Chain' tsLT c.ticks ∧
    ∀ t ∈ c.ticks, c.start_timestamp ≤ t.timestamp ∧ t.timestamp ≤ c.end_timestamp

/-- A well-formed partition set: every chunk well-formed and the declared
spans strictly ordered without overlap (spec §3, Chunk Descriptor). -/
def wfChunks (cs : List ChunkInfo) : Prop :=
  (∀ c ∈ cs, wfChunk c) ∧ List.Chain' chunkLT cs

/-- Adjacent-pair check used to decide `List.Chain'` by plain kernel
evaluation. -/
def chainB (p : α → α → Bool) : List α → Bool
  | [] => true
  | [_] => true
  | a :: b :: l => p a b && chainB p (b :: l)

theorem chainB_iff (p : α → α → Prop) [DecidableRel p] :
    ∀ l : List α, chainB (fun a b => decide (p a b)) l = true ↔ List.Chain' p l
  | [] => by simp [chainB]
  | [a] => by simp [chainB]
  | a :: b :: l => by
    rw [List.chain'_cons, ← chainB_iff p (b :: l)]
    simp [chainB]

instance (c : ChunkInfo) : Decidable (wfChunk c) :=
  decidable_of_iff
    (c.start_timestamp ≤ c.end_timestamp ∧
      chainB (fun a b => decide (tsLT a b)) c.ticks = true ∧
      ∀ t ∈ c.ticks, c.start_timestamp ≤ t.timestamp ∧ t.timestamp ≤ c.end_timestamp)
    (and_congr Iff.rfl (and_congr (chainB_iff tsLT c.ticks) Iff.rfl))

instance (cs : List ChunkInfo) : Decidable (wfChunks cs) :=
  decidable_of_iff
    ((∀ c ∈ cs, wfChunk c) ∧ chainB (fun c d => decide (chunkLT c d)) cs = true)
    (and_congr Iff.rfl (chainB_iff chunkLT cs))

/-- The full logical tick sequence held by a partitioned store. -/
def logicalData (cs : List ChunkInfo) : List Tick := (cs.map ChunkInfo.ticks).flatten

/-- Mirror of `yieldBatchesAux` on lengths only: the batch sizes produced
from a cache of `n` rows none of which reaches past the stream's end. -/
def chunkLensAux (bs : Nat) : Nat → Nat → List Nat
  | _, 0 => []
  | 0, _ + 1 => []
  | fuel + 1, n + 1 =>
    if bs = 0 then [] else min bs (n + 1) :: chunkLensAux bs fuel (n + 1 - bs)

/-- The OHLC invariant together with its propagation to the open candle. -/
def GoodState (st : BuilderState) : Prop :=
  (∀ c ∈ st.completed_candles, GoodCandle c) ∧
    ∀ c, st.current_candle = some c → GoodCandle c

/-- Invariant of the builder state after feeding `processed` ticks whose
bucket sequence is non-decreasing: the open candle's bucket is the maximal
bucket seen and its `tick_count` counts exactly the ticks of that bucket. -/
def INVb (tf : Nat) (processed : List Tick) (st : BuilderState) : Prop :=
  st.timeframe_seconds = tf ∧
    match st.current_candle, st.current_candle_start with
    | some cur, some s =>
      s = cur.timestamp ∧
        cur.tick_count =
          processed.countP (fun tk => decide (get_candle_start tf tk.timestamp = cur.timestamp)) ∧
        (∃ tk ∈ processed, get_candle_start tf tk.timestamp = cur.timestamp) ∧
        (∀ tk ∈ processed, get_candle_start tf tk.timestamp ≤ cur.timestamp)
    | none, none => processed = []
    | _, _ => False

/-! ### Concrete stores and builder states used in scenario proofs -/

/-- A sample tick. -/
def mkT (t p : Int) : Tick :=
  { timestamp := t, price := p, bid := p - 1, ask := p + 1, spread := 2, volume := 10,
    session := "rth" }

/-- One tick per second: `n` ticks starting at time `a`. -/
def secTicks (a : Int) (n : Nat) : List Tick :=
  (List.range n).map fun i : Nat => mkT (a + (i : Int)) 100

/-- Scenario D store: one tick per second covering 09:30:00–09:35:00
(epoch-of-day seconds 34200–34500, both ends inclusive) in one chunk. -/
def chunkD : ChunkInfo :=
  { filename := "nq_ticks_0001.csv", start_timestamp := 34200, end_timestamp := 34500,
    records := 301, ticks := secTicks 34200 301 }

/-- Scenario D loader over `chunkD` with the default cache size. -/
def storeD : LoaderState :=
  { chunks := [chunkD], cacheSize := 300000, cache := [], cacheStart := none, cacheEnd := none }

/-- The loader state after scenario D's first buffer load: the full
per-second cache with its bounds. -/
def storeDLoaded : LoaderState :=
  { chunks := [chunkD], cacheSize := 300000, cache := secTicks 34200 301,
    cacheStart := some 34200, cacheEnd := some 34500 }

/-- A two-tick chunk covering `[0, 1]`. -/
def chunkPair : ChunkInfo :=
  { filename := "nq_ticks_0001.csv", start_timestamp := 0, end_timestamp := 1,
    records := 2, ticks := [mkT 0 100, mkT 1 101] }

/-- Loader over `chunkPair` whose cache holds a single row — used to separate
the partitioned backend (which truncates at the cache size) from the
single-table backend (which does not). -/
def storePairTiny : LoaderState :=
  { chunks := [chunkPair], cacheSize := 1, cache := [], cacheStart := none, cacheEnd := none }

/-- Loader over `chunkPair` with a roomy cache. -/
def storePair : LoaderState :=
  { chunks := [chunkPair], cacheSize := 5, cache := [], cacheStart := none, cacheEnd := none }

/-- A chunk whose declared span `[0, 10]` holds rows only at its two ends. -/
def chunkSparse : ChunkInfo :=
  { filename := "nq_ticks_0001.csv", start_timestamp := 0, end_timestamp := 10,
    records := 2, ticks := [mkT 0 100, mkT 10 101] }

/-- Loader over `chunkSparse` with a fresh cache. -/
def storeSparse : LoaderState :=
  { chunks := [chunkSparse], cacheSize := 100, cache := [], cacheStart := none, cacheEnd := none }

/-- Loader over `chunkSparse` with a point-lookup window already established
around timestamp 5. -/
def storeSparseWindow : LoaderState :=
  { chunks := [chunkSparse], cacheSize := 100, cache := [mkT 0 100, mkT 10 101],
    cacheStart := some 0, cacheEnd := some 10 }

/-- Builder state with a one-minute open candle for bucket 60. -/
def builder60 : BuilderState :=
  { timeframe_seconds := 60, current_candle := some (newCandle 60 (mkT 70 100)),
    current_candle_start := some 60, completed_candles := [] }

/-- Three in-order ticks: two in bucket 0, one in bucket 60 (tf = 60s). -/
def ticksMono : List Tick := [mkT 0 100, mkT 30 101, mkT 60 102]

/-- A backward-seek sequence: buckets 60, 0, 120 (tf = 60s). -/
def ticksBack : List Tick := [mkT 60 100, mkT 0 101, mkT 120 102]

/-! ### General helper lemmas -/

theorem sortTs_sorted (l : List Tick) : List.Sorted tsLE (sortTs l) :=
  List.sorted_insertionSort tsLE l

theorem sortTs_perm (l : List Tick) : (sortTs l).Perm l :=
  List.perm_insertionSort tsLE l

theorem sortTs_eq_self {l : List Tick} (h : List.Sorted tsLE l) : sortTs l = l :=
  h.insertionSort_eq

theorem mem_sortTs {l : List Tick} {a : Tick} : a ∈ sortTs l ↔ a ∈ l :=
  (sortTs_perm l).mem_iff

/-- Filtering each chunk's rows before flattening is the same as filtering
the flattened rows. -/
theorem filter_flatten (p : Tick → Bool) :
    ∀ cs : List ChunkInfo,
      (cs.map fun c => c.ticks.filter p).flatten = (cs.map ChunkInfo.ticks).flatten.filter p
  | [] => rfl
  | c :: cs => by
    simp only [List.map_cons, List.flatten_cons, List.filter_append, filter_flatten p cs]

theorem filter_idem (p : Tick → Bool) : ∀ l : List Tick, (l.filter p).filter p = l.filter p
  | [] => rfl
  | t :: l => by
    by_cases h : p t <;> simp [List.filter_cons, h, filter_idem p l]

/-- A strictly time-sorted list is (non-strictly) sorted. -/
theorem sorted_of_pairwise_tsLT {l : List Tick} (h : l.Pairwise tsLT) : List.Sorted tsLE l :=
  h.imp fun hab => le_of_lt hab

/-- The head of a chunk chain lies strictly before every later chunk,
provided each later chunk's own span is non-degenerate. -/
theorem chain_head_chunkLT :
    ∀ (c : ChunkInfo) (cs : List ChunkInfo),
      (∀ x ∈ cs, x.start_timestamp ≤ x.end_timestamp) →
      List.Chain' chunkLT (c :: cs) → ∀ d ∈ cs, chunkLT c d
  | _, [], _, _, _, hd => absurd hd (by simp)
  | c, c' :: cs, hspan, hch, d, hd => by
    have hcc' : chunkLT c c' := (List.chain'_cons.mp hch).1
    cases hd with
    | head => exact hcc'
    | tail _ hd' =>
      have hch' : List.Chain' chunkLT (c' :: cs) := (List.chain'_cons.mp hch).2
      have hrec : chunkLT c' d :=
        chain_head_chunkLT c' cs (fun x hx => hspan x (.tail c' hx)) hch' d hd'
      have hc'span := hspan c' (.head cs)
      unfold chunkLT at *
      omega

/-- `Chain'` on chunk spans upgrades to `Pairwise` when every chunk's own
span is non-degenerate. -/
theorem chain_chunkLT_pairwise :
    ∀ {cs : List ChunkInfo}, (∀ c ∈ cs, c.start_timestamp ≤ c.end_timestamp) →
      List.Chain' chunkLT cs → cs.Pairwise chunkLT
  | [], _, _ => List.Pairwise.nil
  | c :: cs, hspan, hch =>
    List.Pairwise.cons
      (chain_head_chunkLT c cs (fun x hx => hspan x (.tail c hx)) hch)
      (chain_chunkLT_pairwise (fun d hd => hspan d (.tail c hd)) hch.tail)

/-- In a well-formed partition set the flattened logical data is strictly
sorted by timestamp. -/
theorem wf_logical_pairwise {cs : List ChunkInfo} (h : wfChunks cs) :
    (logicalData cs).Pairwise tsLT := by
  rcases h with ⟨hc, hord⟩
  rw [logicalData, List.pairwise_flatten]
  refine ⟨?_, ?_⟩
  · intro l hl
    rcases List.mem_map.mp hl with ⟨c, hcmem, rfl⟩
    exact List.chain'_iff_pairwise.mp (hc c hcmem).2.1
  · have hp : cs.Pairwise chunkLT :=
      chain_chunkLT_pairwise (fun d hd => (hc d hd).1) hord
    have : (cs.map ChunkInfo.ticks).Pairwise
        (fun l₁ l₂ => ∀ x ∈ l₁, ∀ y ∈ l₂, tsLT x y) := by
      rw [List.pairwise_map]
      refine hp.imp_of_mem ?_
      intro c d hcm hdm hcd x hx y hy
      have hxc := (hc c hcm).2.2 x hx
      have hyd := (hc d hdm).2.2 y hy
      exact lt_of_le_of_lt hxc.2 (lt_of_lt_of_le hcd hyd.1)
    exact this

/-- A chunk that fails the overlap test contributes no row inside the query
range. -/
theorem filter_eq_nil_of_no_overlap {c : ChunkInfo} (hwf : wfChunk c) {s e : Int}
    (h : ¬(c.start_timestamp ≤ e ∧ s ≤ c.end_timestamp)) :
    c.ticks.filter (inRangeB s e) = [] := by
  rw [List.filter_eq_nil_iff]
  intro t ht
  obtain ⟨hb1, hb2⟩ := hwf.2.2 t ht
  rw [inRangeB]
  simp only [Bool.and_eq_true, decide_eq_true_eq, not_and]
  intro hs
  rcases not_and_or.mp h with h1 | h1 <;> push_neg at h1 <;> omega

/-- Restricting the flatten-and-filter to the overlapping chunks loses
nothing. -/
theorem filter_relevant_eq (s e : Int) :
    ∀ (cs : List ChunkInfo), (∀ c ∈ cs, wfChunk c) →
      ((relevantChunks cs s e).map ChunkInfo.ticks).flatten.filter (inRangeB s e) =
        (cs.map ChunkInfo.ticks).flatten.filter (inRangeB s e)
  | [], _ => rfl
  | c :: cs, h => by
    have ih := filter_relevant_eq s e cs fun d hd => h d (.tail c hd)
    simp only [relevantChunks, List.filter_cons] at ih ⊢
    by_cases hov : (decide (c.start_timestamp ≤ e) && decide (s ≤ c.end_timestamp)) = true
    · rw [if_pos hov]
      simp only [List.map_cons, List.flatten_cons, List.filter_append, ih]
    · rw [if_neg hov]
      simp only [List.map_cons, List.flatten_cons, List.filter_append, ih,
        filter_eq_nil_of_no_overlap (h c (.head cs)) (by simpa using hov)]
      rw [List.nil_append]

/-- What `_load_cache_csv` stores in `_cache`: the rows of the overlapping
chunks restricted to the query range, sorted by timestamp, truncated to the
cache size. -/
theorem load_cache_csv_cache (st : LoaderState) (s e : Int) :
    (load_cache_csv st s e).cache =
      (sortTs (((relevantChunks st.chunks s e).map ChunkInfo.ticks).flatten.filter
        (inRangeB s e))).take st.cacheSize := by
  rw [load_cache_csv]
  by_cases h : (relevantChunks st.chunks s e).isEmpty
  · rw [if_pos h]
    rw [List.isEmpty_iff] at h
    simp [h, sortTs, List.insertionSort]
  · rw [if_neg h]
    simp only [filter_flatten]

theorem load_cache_csv_chunks (st : LoaderState) (s e : Int) :
    (load_cache_csv st s e).chunks = st.chunks := by
  rw [load_cache_csv]
  by_cases h : (relevantChunks st.chunks s e).isEmpty <;> simp [h]

theorem load_cache_csv_cacheSize (st : LoaderState) (s e : Int) :
    (load_cache_csv st s e).cacheSize = st.cacheSize := by
  rw [load_cache_csv]
  by_cases h : (relevantChunks st.chunks s e).isEmpty <;> simp [h]

/-- Every cached row comes from the store. -/
theorem load_cache_csv_subset (st : LoaderState) (s e : Int) :
    (load_cache_csv st s e).cache ⊆ logicalData st.chunks := by
  intro a ha
  rw [load_cache_csv_cache] at ha
  have h1 := List.mem_of_mem_take ha
  have h2 := mem_sortTs.mp h1
  have h3 := List.mem_of_mem_filter h2
  rcases List.mem_flatten.mp h3 with ⟨l, hl, hal⟩
  rcases List.mem_map.mp hl with ⟨c, hcm, rfl⟩
  have hcs : c ∈ st.chunks := List.mem_of_mem_filter hcm
  exact List.mem_flatten.mpr ⟨c.ticks, List.mem_map.mpr ⟨c, hcs, rfl⟩, hal⟩

/-- The loaded cache is sorted by timestamp. -/
theorem load_cache_csv_sorted (st : LoaderState) (s e : Int) :
    List.Sorted tsLE (load_cache_csv st s e).cache := by
  rw [load_cache_csv_cache]
  exact (sortTs_sorted _).sublist (List.take_sublist _ _)

theorem getLast?_mem' : ∀ {l : List Tick} {a : Tick}, l.getLast? = some a → a ∈ l
  | [], _, h => by simp at h
  | [x], a, h => by
    simp only [List.getLast?_singleton, Option.some.injEq] at h
    simp [h]
  | x :: y :: l, a, h => by
    rw [List.getLast?_cons_cons] at h
    exact .tail x (getLast?_mem' h)

/-- In a timestamp-sorted list the last element carries the maximal
timestamp. -/
theorem sorted_le_getLast :
    ∀ {l : List Tick}, List.Sorted tsLE l → ∀ {r : Tick}, l.getLast? = some r →
      ∀ u ∈ l, u.timestamp ≤ r.timestamp
  | [], _, _, h => by simp at h
  | [x], _, r, h => by
    simp only [List.getLast?_singleton, Option.some.injEq] at h
    intro u hu
    rcases List.mem_singleton.mp hu with rfl
    rw [h]
  | x :: y :: l, hs, r, h => by
    rw [List.getLast?_cons_cons] at h
    intro u hu
    have htail := sorted_le_getLast (List.Sorted.of_cons hs) h
    cases hu with
    | head =>
      have hr : r ∈ y :: l := getLast?_mem' h
      exact (List.rel_of_sorted_cons hs r hr :)
    | tail _ hu' => exact htail u hu'

/-- Under well-formedness and a large enough cache, a CSV cache load holds
exactly the in-range rows of the logical data, in logical order. -/
theorem load_cache_eq_filter (st : LoaderState) (s e : Int) (hwf : wfChunks st.chunks)
    (hsize : ((logicalData st.chunks).filter (inRangeB s e)).length ≤ st.cacheSize) :
    (load_cache_csv st s e).cache = (logicalData st.chunks).filter (inRangeB s e) := by
  rw [load_cache_csv_cache, filter_relevant_eq s e st.chunks hwf.1]
  have hsorted : List.Sorted tsLE ((st.chunks.map ChunkInfo.ticks).flatten.filter (inRangeB s e)) :=
    (sorted_of_pairwise_tsLT (wf_logical_pairwise hwf)).filter _
  rw [show (st.chunks.map ChunkInfo.ticks).flatten = logicalData st.chunks from rfl] at hsorted ⊢
  rw [sortTs_eq_self hsorted, List.take_of_length_le hsize]

/-! ### C1: backend equivalence of the range query -/

/-- C1 (amended): for every well-formed partition set whose in-range row
count does not exceed the cache size, the partitioned-backend range query
returns a result identical — same ticks, same order — to the single-table
backend's range query over the same logical data.  (As stated, without the
cache-size bound, the claim fails: see the counterexample.) -/
theorem c1_theorem (st : LoaderState) (table : List Tick) (s e : Int) (limit : Option Nat)
    (hwf : wfChunks st.chunks) (htable : table = logicalData st.chunks)
    (hsize : ((logicalData st.chunks).filter (inRangeB s e)).length ≤ st.cacheSize) :
    (get_ticks_range_csv st s e limit).1 = get_ticks_range_db table s e limit := by
  subst htable
  show applyLimit limit ((load_cache_csv st s e).cache.filter (inRangeB s e)) =
    applyLimit limit (sortTs ((logicalData st.chunks).filter (inRangeB s e)))
  rw [load_cache_eq_filter st s e hwf hsize, filter_idem,
    sortTs_eq_self ((sorted_of_pairwise_tsLT (wf_logical_pairwise hwf)).filter _)]

/-- C1 witness: on a well-formed two-row store with a roomy cache both
backends answer the query `[0, 1]` identically. -/
theorem c1_witness : wfChunks storePair.chunks ∧
    ((logicalData storePair.chunks).filter (inRangeB 0 1)).length ≤ storePair.cacheSize ∧
    (get_ticks_range_csv storePair 0 1 none).1 =
      get_ticks_range_db (logicalData storePair.chunks) 0 1 none :=
  ⟨by decide, by decide, c1_theorem storePair _ 0 1 none (by decide) rfl (by decide)⟩

/-- C1 counterexample: with cache size 1 the partitioned backend truncates
the very same well-formed logical data to one row while the single-table
backend returns both rows, so the two backends disagree — the claim as
stated (for every well-formed partition set and query interval) is false. -/
theorem c1_counterexample : wfChunks storePairTiny.chunks ∧
    (get_ticks_range_csv storePairTiny 0 1 none).1 ≠
      get_ticks_range_db (logicalData storePairTiny.chunks) 0 1 none := by
  constructor
  · decide
  · decide

theorem load_cache_csv_bounds_pos (st : LoaderState) (s e : Int)
    (h : ¬(relevantChunks st.chunks s e).isEmpty) :
    (load_cache_csv st s e).cacheStart = minTs? (load_cache_csv st s e).cache ∧
      (load_cache_csv st s e).cacheEnd = maxTs? (load_cache_csv st s e).cache := by
  rw [load_cache_csv]
  simp [h]

theorem load_cache_csv_bounds_neg (st : LoaderState) (s e : Int)
    (h : (relevantChunks st.chunks s e).isEmpty) :
    (load_cache_csv st s e).cache = [] ∧
      (load_cache_csv st s e).cacheStart = st.cacheStart ∧
      (load_cache_csv st s e).cacheEnd = st.cacheEnd := by
  rw [load_cache_csv]
  simp [h]

/-! ### C5: partition pruning of the range query -/

/-- C5 (amended): the partitioned range load reads exactly the chunks
passing the overlap test `chunk.start ≤ query.end ∧ chunk.end ≥ query.start`
(no non-intersecting chunk is read), and the cache it produces is the
concatenation of those chunks' rows *restricted to the query range*, sorted
ascending by timestamp and truncated to the row limit (the cache size).
As literally stated — without the range restriction — the claim is refuted
by the counterexample. -/
theorem c5_theorem (st : LoaderState) (s e : Int) :
    (load_cache_csv st s e).cache =
      (sortTs (((relevantChunks st.chunks s e).map ChunkInfo.ticks).flatten.filter
        (inRangeB s e))).take st.cacheSize ∧
    (∀ c ∈ st.chunks,
      c ∈ relevantChunks st.chunks s e ↔ c.start_timestamp ≤ e ∧ s ≤ c.end_timestamp) ∧
    List.Sorted tsLE (load_cache_csv st s e).cache := by
  refine ⟨load_cache_csv_cache st s e, ?_, load_cache_csv_sorted st s e⟩
  intro c hc
  rw [relevantChunks, List.mem_filter]
  simp [hc]

/-- C5 witness: on the sparse store, the chunk passes the overlap test for
the query `[5, 10]` exactly as the claim's test dictates. -/
theorem c5_witness :
    chunkSparse ∈ relevantChunks storeSparse.chunks 5 10 ↔
      chunkSparse.start_timestamp ≤ 10 ∧ 5 ≤ chunkSparse.end_timestamp :=
  (c5_theorem storeSparse 5 10).2.1 chunkSparse (by decide)

/-- C5 counterexample: for the query `[5, 10]` on a well-formed store whose
single chunk spans `[0, 10]` with rows at 0 and 10, the range operation
returns only the row at 10 — not the truncated sorted concatenation of the
read chunks, which still holds the out-of-range row at 0.  The claim's
"returns their concatenation sorted … and truncated" omits the restriction
to the query range. -/
theorem c5_counterexample : wfChunks storeSparse.chunks ∧
    (get_ticks_range_csv storeSparse 5 10 none).1 ≠
      (sortTs ((relevantChunks storeSparse.chunks 5 10).map ChunkInfo.ticks).flatten).take
        storeSparse.cacheSize := by
  constructor
  · decide
  · decide

/-! ### C10: the range query clobbers the point-lookup window -/

/-- C10 (amended): a partitioned-backend range query replaces the shared
point-cache window wholesale — the resulting cache is a function of the
chunk index, cache size and query bounds only, never of the previous
window — and whenever at least one chunk intersects the query range it also
overwrites the cached window bounds with the min/max timestamp of the newly
loaded (possibly empty) cache.  When no chunk intersects the range, however,
the cache is cleared but the stale bounds of the discarded window are left
in place, contrary to the claim's unconditional "overwrites the cached
window bounds". -/
theorem c10_theorem (st₁ st₂ : LoaderState) (s e : Int) (limit : Option Nat)
    (hc : st₁.chunks = st₂.chunks) (hn : st₁.cacheSize = st₂.cacheSize) :
    (get_ticks_range_csv st₁ s e limit).2.cache = (get_ticks_range_csv st₂ s e limit).2.cache ∧
    (get_ticks_range_csv st₁ s e limit).2.cache =
      (sortTs (((relevantChunks st₁.chunks s e).map ChunkInfo.ticks).flatten.filter
        (inRangeB s e))).take st₁.cacheSize ∧
    (¬(relevantChunks st₁.chunks s e).isEmpty →
      (get_ticks_range_csv st₁ s e limit).2.cacheStart =
        minTs? (get_ticks_range_csv st₁ s e limit).2.cache ∧
      (get_ticks_range_csv st₁ s e limit).2.cacheEnd =
        maxTs? (get_ticks_range_csv st₁ s e limit).2.cache) ∧
    ((relevantChunks st₁.chunks s e).isEmpty →
      (get_ticks_range_csv st₁ s e limit).2.cache = [] ∧
      (get_ticks_range_csv st₁ s e limit).2.cacheStart = st₁.cacheStart ∧
      (get_ticks_range_csv st₁ s e limit).2.cacheEnd = st₁.cacheEnd) := by
  have h2 : (get_ticks_range_csv st₂ s e limit).2 = load_cache_csv st₂ s e := rfl
  have h1 : (get_ticks_range_csv st₁ s e limit).2 = load_cache_csv st₁ s e := rfl
  refine ⟨?_, ?_, ?_, ?_⟩
  · rw [h1, h2, load_cache_csv_cache, load_cache_csv_cache, hc, hn]
  · rw [h1, load_cache_csv_cache]
  · intro h
    rw [h1]
    exact load_cache_csv_bounds_pos st₁ s e h
  · intro h
    rw [h1]
    exact load_cache_csv_bounds_neg st₁ s e h

/-- C10 witness: two loaders sharing the sparse store but holding different
point-lookup windows end up with the same cache after the same range query —
the previous window never influences the result. -/
theorem c10_witness :
    (get_ticks_range_csv storeSparseWindow 5 10 none).2.cache =
      (get_ticks_range_csv storeSparse 5 10 none).2.cache :=
  (c10_theorem storeSparseWindow storeSparse 5 10 none rfl rfl).1

/-- C10 counterexample: a range query for `[100, 200]` — beyond every chunk —
on a loader with an established window empties the cache but leaves the old
window bounds `some 0 / some 10` in place instead of overwriting them, so
the claim's "overwrites the cached window bounds" is false as stated. -/
theorem c10_counterexample :
    (get_ticks_range_csv storeSparseWindow 100 200 none).2.cache = [] ∧
    (get_ticks_range_csv storeSparseWindow 100 200 none).2.cacheStart =
      storeSparseWindow.cacheStart ∧
    storeSparseWindow.cacheStart = some 0 ∧
    (get_ticks_range_csv storeSparseWindow 100 200 none).2.cacheEnd =
      storeSparseWindow.cacheEnd ∧
    storeSparseWindow.cacheEnd = some 10 := by
  refine ⟨by decide, by decide, rfl, by decide, rfl⟩

theorem ensure_covered_sorted (st : LoaderState) (t : Int)
    (hs : List.Sorted tsLE st.cache) : List.Sorted tsLE (ensure_covered st t).cache := by
  rw [ensure_covered]
  by_cases h : needsReload st t
  · rw [if_pos h]; exact load_cache_csv_sorted st _ _
  · rw [if_neg h]; exact hs

theorem ensure_covered_subset (st : LoaderState) (t : Int)
    (hsub : st.cache ⊆ logicalData st.chunks) :
    (ensure_covered st t).cache ⊆ logicalData st.chunks := by
  rw [ensure_covered]
  by_cases h : needsReload st t
  · rw [if_pos h]; exact load_cache_csv_subset st _ _
  · rw [if_neg h]; exact hsub

/-- The tick returned by `get_tick_at` is the last element of the ensured
window filtered to timestamps at or before the request. -/
theorem get_tick_at_fst (st : LoaderState) (t : Int) :
    (get_tick_at st t).1 =
      ((ensure_covered st t).cache.filter fun u => decide (u.timestamp ≤ t)).getLast? := by
  rw [get_tick_at]
  by_cases h : (ensure_covered st t).cache.isEmpty
  · rw [List.isEmpty_iff] at h
    simp [h]
  · simp only [if_neg h]
    cases hl : ((ensure_covered st t).cache.filter fun u => decide (u.timestamp ≤ t)).getLast? <;>
      simp [hl]

theorem get_tick_at_snd (st : LoaderState) (t : Int) :
    (get_tick_at st t).2.1 = ensure_covered st t := by
  rw [get_tick_at]
  by_cases h : (ensure_covered st t).cache.isEmpty
  · simp [h]
  · simp only [if_neg h]
    cases hl : ((ensure_covered st t).cache.filter fun u => decide (u.timestamp ≤ t)).getLast? <;>
      simp [hl]

theorem get_tick_at_reads (st : LoaderState) (t : Int) :
    (get_tick_at st t).2.2 =
      if needsReload st t then (relevantChunks st.chunks (t - 1800) (t + 7200)).length
      else 0 := by
  rw [get_tick_at]
  by_cases h : (ensure_covered st t).cache.isEmpty
  · simp [h]
  · simp only [if_neg h]
    cases hl : ((ensure_covered st t).cache.filter fun u => decide (u.timestamp ≤ t)).getLast? <;>
      simp [hl]

/-! ### C6: point lookup returns the latest tick at or before the request -/

/-- C6: over any loader state with a sorted window (every reachable state),
`get_tick_at t` returns the latest tick of the ensured window whose
timestamp is ≤ `t`; it returns `none` exactly when the ensured window is
empty or every tick in it is after `t`; and in particular it returns `none`
whenever `t` lies before the store's earliest tick. -/
theorem c6_theorem (st : LoaderState) (t : Int) (hsort : List.Sorted tsLE st.cache) :
    (∀ r, (get_tick_at st t).1 = some r →
      r ∈ (ensure_covered st t).cache ∧ r.timestamp ≤ t ∧
        ∀ u ∈ (ensure_covered st t).cache, u.timestamp ≤ t → u.timestamp ≤ r.timestamp) ∧
    ((get_tick_at st t).1 = none ↔ ∀ u ∈ (ensure_covered st t).cache, t < u.timestamp) ∧
    (st.cache ⊆ logicalData st.chunks →
      (∀ u ∈ logicalData st.chunks, t < u.timestamp) → (get_tick_at st t).1 = none) := by
  have hsort' := ensure_covered_sorted st t hsort
  have hf := get_tick_at_fst st t
  have hselsorted : List.Sorted tsLE
      ((ensure_covered st t).cache.filter fun u => decide (u.timestamp ≤ t)) :=
    hsort'.filter _
  have hiff : (get_tick_at st t).1 = none ↔
      ∀ u ∈ (ensure_covered st t).cache, t < u.timestamp := by
    rw [hf, List.getLast?_eq_none_iff, List.filter_eq_nil_iff]
    constructor
    · intro hnone u hu
      have := hnone u hu
      simp only [decide_eq_true_eq] at this
      omega
    · intro hall u hu
      simp only [decide_eq_true_eq]
      exact not_le.mpr (hall u hu)
  refine ⟨?_, hiff, ?_⟩
  · intro r hr
    rw [hf] at hr
    have hrsel := getLast?_mem' hr
    have hrmem := List.mem_filter.mp hrsel
    refine ⟨hrmem.1, by simpa using hrmem.2, ?_⟩
    intro u hu hut
    exact sorted_le_getLast hselsorted hr u
      (List.mem_filter.mpr ⟨hu, by simpa using hut⟩)
  · intro hsub hafter
    rw [hiff]
    intro u hu
    exact hafter u (ensure_covered_subset st t hsub hu)

/-- C6 witness: a request earlier than the store's minimum timestamp
returns `none` (end-to-end scenario C). -/
theorem c6_witness : (get_tick_at storeSparse (-100)).1 = none :=
  (c6_theorem storeSparse (-100) (by simp [storeSparse])).2.2
    (List.nil_subset _) (by decide)

/-! ### C7: a covered ensure performs no store reads -/

/-- C7: when the cache window already covers the requested timestamp
(non-empty, `window_start ≤ t ≤ window_end`), the coverage check inside
`get_tick_at` performs zero store reads and leaves the loader state — in
particular the window — unchanged, so a repeated call is identical. -/
theorem c7_theorem (st : LoaderState) (t s e : Int)
    (hne : st.cache ≠ []) (hs : st.cacheStart = some s) (he : st.cacheEnd = some e)
    (hst : s ≤ t) (hte : t ≤ e) :
    (get_tick_at st t).2.1 = st ∧ (get_tick_at st t).2.2 = 0 ∧
      get_tick_at ((get_tick_at st t).2.1) t = get_tick_at st t := by
  have hnr : needsReload st t = false := by
    rw [needsReload, hs, he]
    simp only [Bool.or_eq_false_iff, List.isEmpty_eq_false, decide_eq_false_iff_not]
    exact ⟨hne, by simp [not_lt.mpr hst, not_lt.mpr hte]⟩
  have hens : ensure_covered st t = st := by
    rw [ensure_covered, hnr]
    simp
  refine ⟨?_, ?_, ?_⟩
  · rw [get_tick_at_snd, hens]
  · rw [get_tick_at_reads, hnr]
    simp
  · rw [get_tick_at_snd, hens]

/-- C7 witness: with the window `[0, 10]` established, looking up `t = 5`
reads nothing and keeps the state. -/
theorem c7_witness : (get_tick_at storeSparseWindow 5).2.1 = storeSparseWindow ∧
    (get_tick_at storeSparseWindow 5).2.2 = 0 ∧
    get_tick_at ((get_tick_at storeSparseWindow 5).2.1) 5 = get_tick_at storeSparseWindow 5 :=
  c7_theorem storeSparseWindow 5 0 10 (by decide) rfl rfl (by decide) (by decide)

/-! ### C3: a backward tick updates the open candle in place -/

/-- C3: when the open candle exists and a tick's bucket lies strictly before
the open candle's bucket start, `add_tick` seals nothing, opens no new
candle, leaves the bucket start and the sealed history unchanged, and merely
updates the open candle in place (`high = max`, `low = min`, `close = price`,
`volume` and `tick_count` incremented). -/
theorem c3_theorem (st : BuilderState) (cur : Candle) (s : Int) (tk : Tick)
    (hc : st.current_candle = some cur) (hs : st.current_candle_start = some s)
    (hlt : get_candle_start st.timeframe_seconds tk.timestamp < s) :
    (add_tick st tk).1 = none ∧
    (add_tick st tk).2.completed_candles = st.completed_candles ∧
    (add_tick st tk).2.current_candle_start = st.current_candle_start ∧
    (add_tick st tk).2.current_candle = some
      { timestamp := cur.timestamp, open_ := cur.open_, high := max cur.high tk.price,
        low := min cur.low tk.price, close := tk.price, volume := cur.volume + tk.volume,
        tick_count := cur.tick_count + 1 } := by
  have hngt : ¬ get_candle_start st.timeframe_seconds tk.timestamp > s := not_lt.mpr (le_of_lt hlt)
  simp [add_tick, hc, hs, hngt, updateCandle]

/-- C3 witness: a tick of bucket 0 fed to a builder whose open candle sits
at bucket 60 merges into that candle. -/
theorem c3_witness : (add_tick builder60 (mkT 10 105)).1 = none ∧
    (add_tick builder60 (mkT 10 105)).2.completed_candles = builder60.completed_candles ∧
    (add_tick builder60 (mkT 10 105)).2.current_candle_start =
      builder60.current_candle_start :=
  have h := c3_theorem builder60 (newCandle 60 (mkT 70 100)) 60 (mkT 10 105) rfl rfl (by decide)
  ⟨h.1, h.2.1, h.2.2.1⟩

/-! ### Builder run lemmas -/

theorem run_from_nil (st : BuilderState) : run_from st [] = st := rfl

theorem run_from_cons (st : BuilderState) (tk : Tick) (rest : List Tick) :
    run_from st (tk :: rest) = run_from (add_tick st tk).2 rest := rfl

theorem runEmit_cons (st : BuilderState) (tk : Tick) (rest : List Tick) :
    runEmit st (tk :: rest) =
      ((runEmit (add_tick st tk).2 rest).1,
        (add_tick st tk).1.toList ++ (runEmit (add_tick st tk).2 rest).2) := rfl

theorem GoodCandle_new (cs : Int) (tk : Tick) : GoodCandle (newCandle cs tk) := by
  simp [GoodCandle, newCandle]

theorem GoodCandle_update (cur : Candle) (tk : Tick) (h : GoodCandle cur) :
    GoodCandle (updateCandle cur tk) := by
  obtain ⟨h1, h2, h3, h4⟩ := h
  exact ⟨le_trans (min_le_left _ _) h1, le_trans h2 (le_max_left _ _),
    min_le_right _ _, le_max_right _ _⟩

theorem add_tick_good (st : BuilderState) (tk : Tick) (h : GoodState st) :
    GoodState (add_tick st tk).2 := by
  obtain ⟨hcomp, hcur⟩ := h
  rw [add_tick]
  cases hc : st.current_candle with
  | none =>
    cases hcs : st.current_candle_start <;>
      exact ⟨hcomp, fun c h' => by
        simp only [Option.some.injEq] at h'
        rw [← h']; exact GoodCandle_new _ _⟩
  | some cur =>
    cases hcs : st.current_candle_start with
    | none =>
      exact ⟨hcomp, fun c h' => by
        simp only [Option.some.injEq] at h'
        rw [← h']; exact GoodCandle_new _ _⟩
    | some s =>
      by_cases hgt : get_candle_start st.timeframe_seconds tk.timestamp > s
      · simp only [if_pos hgt]
        constructor
        · intro c hmem
          simp only at hmem
          by_cases hlen : (st.completed_candles ++ [cur]).length > max_candles
          · rw [if_pos hlen] at hmem
            have hmem' := List.drop_subset _ _ hmem
            rcases List.mem_append.mp hmem' with h1 | h2
            · exact hcomp c h1
            · rw [List.mem_singleton.mp h2]
              exact hcur cur hc
          · rw [if_neg hlen] at hmem
            rcases List.mem_append.mp hmem with h1 | h2
            · exact hcomp c h1
            · rw [List.mem_singleton.mp h2]
              exact hcur cur hc
        · intro c h'
          simp only [Option.some.injEq] at h'
          rw [← h']
          exact GoodCandle_new _ _
      · simp only [if_neg hgt]
        refine ⟨hcomp, fun c h' => ?_⟩
        simp only [Option.some.injEq] at h'
        rw [← h']
        exact GoodCandle_update cur tk (hcur cur hc)

theorem run_from_good : ∀ (l : List Tick) (st : BuilderState),
    GoodState st → GoodState (run_from st l)
  | [], _, h => h
  | tk :: rest, st, h => run_from_good rest (add_tick st tk).2 (add_tick_good st tk h)

theorem init_good (tf : Nat) : GoodState (init_builder tf) := by
  refine ⟨fun c hc => ?_, fun c hc => ?_⟩ <;> simp [init_builder] at hc

theorem add_tick_roll (st : BuilderState) (cur : Candle) (s : Int) (tk : Tick)
    (hc : st.current_candle = some cur) (hs : st.current_candle_start = some s)
    (hgt : get_candle_start st.timeframe_seconds tk.timestamp > s) :
    (add_tick st tk).2.current_candle =
      some (newCandle (get_candle_start st.timeframe_seconds tk.timestamp) tk) ∧
    (add_tick st tk).2.current_candle_start =
      some (get_candle_start st.timeframe_seconds tk.timestamp) ∧
    (add_tick st tk).1 = some cur := by
  simp [add_tick, hc, hs, hgt]

theorem add_tick_upd (st : BuilderState) (cur : Candle) (s : Int) (tk : Tick)
    (hc : st.current_candle = some cur) (hs : st.current_candle_start = some s)
    (hgt : ¬ get_candle_start st.timeframe_seconds tk.timestamp > s) :
    (add_tick st tk).2.current_candle = some (updateCandle cur tk) ∧
    (add_tick st tk).2.current_candle_start = some s ∧
    (add_tick st tk).1 = none := by
  simp [add_tick, hc, hs, hgt]

/-- Along any run, while the open candle keeps its bucket its volume and
tick count never decrease; the bucket start itself never decreases. -/
theorem run_mono : ∀ (l : List Tick) (st : BuilderState) (cur : Candle),
    st.current_candle = some cur → st.current_candle_start = some cur.timestamp →
    ∃ cur', (run_from st l).current_candle = some cur' ∧
      (run_from st l).current_candle_start = some cur'.timestamp ∧
      cur.timestamp ≤ cur'.timestamp ∧
      (cur'.timestamp = cur.timestamp →
        cur.volume ≤ cur'.volume ∧ cur.tick_count ≤ cur'.tick_count)
  | [], _, cur, hc, hs => ⟨cur, hc, hs, le_refl _, fun _ => ⟨le_refl _, le_refl _⟩⟩
  | tk :: rest, st, cur, hc, hs => by
    rw [run_from_cons]
    by_cases hgt : get_candle_start st.timeframe_seconds tk.timestamp > cur.timestamp
    · obtain ⟨h1, h2, _⟩ := add_tick_roll st cur cur.timestamp tk hc hs hgt
      have h2' : (add_tick st tk).2.current_candle_start =
          some (newCandle (get_candle_start st.timeframe_seconds tk.timestamp) tk).timestamp :=
        h2
      obtain ⟨cur', hc', hs', hle, _⟩ := run_mono rest (add_tick st tk).2 _ h1 h2'
      have hcsle : get_candle_start st.timeframe_seconds tk.timestamp ≤ cur'.timestamp := hle
      refine ⟨cur', hc', hs', le_trans (le_of_lt hgt) hcsle, ?_⟩
      intro heq
      exfalso
      omega
    · obtain ⟨h1, h2, _⟩ := add_tick_upd st cur cur.timestamp tk hc hs hgt
      have h2' : (add_tick st tk).2.current_candle_start =
          some (updateCandle cur tk).timestamp := h2
      obtain ⟨cur', hc', hs', hle, hmono⟩ := run_mono rest (add_tick st tk).2 _ h1 h2'
      have hts : (updateCandle cur tk).timestamp = cur.timestamp := rfl
      refine ⟨cur', hc', hs', by rw [hts] at hle; exact hle, ?_⟩
      intro heq
      obtain ⟨hv, hn⟩ := hmono (heq.trans hts.symm)
      exact ⟨le_trans (Nat.le_add_right _ _) hv, le_trans (Nat.le_succ _) hn⟩

/-! ### C9: OHLC consistency and per-bucket monotonicity -/

/-- C9: (a) every candle a builder run ever exposes through `get_candles`
(sealed or open) satisfies `low ≤ open ≤ high` and `low ≤ close ≤ high`;
(b) across any further sequence of `add_tick` calls during which the open
candle keeps its bucket start, its `volume` and `tick_count` are
monotonically non-decreasing. -/
theorem c9_theorem :
    (∀ (tf : Nat) (l : List Tick), ∀ bar ∈ get_candles (run_builder tf l) true, GoodCandle bar) ∧
    (∀ (st : BuilderState) (cur : Candle) (l : List Tick) (cur' : Candle),
      st.current_candle = some cur → st.current_candle_start = some cur.timestamp →
      (run_from st l).current_candle = some cur' → cur'.timestamp = cur.timestamp →
      cur.volume ≤ cur'.volume ∧ cur.tick_count ≤ cur'.tick_count) := by
  constructor
  · intro tf l bar hbar
    have hg := run_from_good l (init_builder tf) (init_good tf)
    rw [get_candles] at hbar
    rcases List.mem_append.mp hbar with h1 | h2
    · exact hg.1 bar h1
    · simp only [if_pos rfl] at h2
      cases hcur : (run_builder tf l).current_candle with
      | none => rw [run_builder] at h2 hcur; rw [hcur] at h2; simp at h2
      | some c =>
        rw [run_builder] at h2 hcur
        rw [hcur] at h2
        simp at h2
        rw [h2]
        exact hg.2 c hcur
  · intro st cur l cur' hc hs hrun heq
    obtain ⟨cur'', hc'', _, _, hmono⟩ := run_mono l st cur hc hs
    rw [hrun, Option.some.injEq] at hc''
    subst hc''
    exact hmono heq

/-- C9 witness: one same-bucket tick fed to a builder with an open candle
leaves volume and tick count non-decreasing. -/
theorem c9_witness :
    (newCandle 60 (mkT 70 100)).volume ≤
      (updateCandle (newCandle 60 (mkT 70 100)) (mkT 90 105)).volume ∧
    (newCandle 60 (mkT 70 100)).tick_count ≤
      (updateCandle (newCandle 60 (mkT 70 100)) (mkT 90 105)).tick_count :=
  c9_theorem.2 builder60 (newCandle 60 (mkT 70 100)) [mkT 90 105]
    (updateCandle (newCandle 60 (mkT 70 100)) (mkT 90 105)) rfl rfl (by decide) (by decide)

theorem add_tick_completed_none : ∀ (st : BuilderState) (tk : Tick),
    (add_tick st tk).1 = none →
    (add_tick st tk).2.completed_candles = st.completed_candles := by
  rintro ⟨tf', cc, ccs, comp⟩ tk h
  cases cc with
  | none => cases ccs <;> rfl
  | some cur =>
    cases ccs with
    | none => rfl
    | some s =>
      simp only [add_tick] at h ⊢
      by_cases hgt : get_candle_start tf' tk.timestamp > s
      · rw [if_pos hgt] at h
        simp at h
      · rw [if_neg hgt]

theorem add_tick_completed_some : ∀ (st : BuilderState) (tk : Tick) (b : Candle),
    (add_tick st tk).1 = some b →
    (add_tick st tk).2.completed_candles =
      if (st.completed_candles ++ [b]).length > max_candles then
        (st.completed_candles ++ [b]).drop ((st.completed_candles ++ [b]).length - max_candles)
      else st.completed_candles ++ [b] := by
  rintro ⟨tf', cc, ccs, comp⟩ tk b h
  cases cc with
  | none => cases ccs <;> simp [add_tick] at h
  | some cur =>
    cases ccs with
    | none => simp [add_tick] at h
    | some s =>
      simp only [add_tick] at h ⊢
      by_cases hgt : get_candle_start tf' tk.timestamp > s
      · rw [if_pos hgt] at h ⊢
        simp only [Option.some.injEq] at h
        subst h
        rfl
      · rw [if_neg hgt] at h
        simp at h

theorem lastN_nil (n : Nat) : lastN n ([] : List Candle) = [] := by
  simp [lastN]

theorem lastN_append_one (E : List Candle) (b : Candle) :
    (if (lastN max_candles E ++ [b]).length > max_candles then
      (lastN max_candles E ++ [b]).drop ((lastN max_candles E ++ [b]).length - max_candles)
    else lastN max_candles E ++ [b]) = lastN max_candles (E ++ [b]) := by
  have hm : 1 ≤ max_candles := by norm_num [max_candles]
  have hlE : (lastN max_candles E).length = E.length - (E.length - max_candles) := by
    rw [lastN, List.length_drop]
  have happlen : (lastN max_candles E ++ [b]).length = (lastN max_candles E).length + 1 := by
    simp
  have happlen' : (E ++ [b]).length = E.length + 1 := by simp
  by_cases h : E.length + 1 ≤ max_candles
  · have h1 : E.length - max_candles = 0 := by omega
    have hEl : lastN max_candles E = E := by rw [lastN, h1, List.drop_zero]
    rw [hEl]
    rw [if_neg (by omega)]
    rw [lastN, show (E ++ [b]).length - max_candles = 0 from by omega, List.drop_zero]
  · have hlen : (lastN max_candles E).length = max_candles := by omega
    rw [if_pos (by omega)]
    rw [show (lastN max_candles E ++ [b]).length - max_candles = 1 from by omega]
    rw [List.drop_append_of_le_length (show 1 ≤ (lastN max_candles E).length by omega)]
    conv_rhs => rw [lastN]
    rw [show (E ++ [b]).length - max_candles = E.length + 1 - max_candles from by omega]
    rw [List.drop_append_of_le_length (show E.length + 1 - max_candles ≤ E.length from by omega)]
    have hdd : (lastN max_candles E).drop 1 = E.drop (E.length + 1 - max_candles) := by
      rw [lastN, List.drop_drop]
      have harith : E.length - max_candles + 1 = E.length + 1 - max_candles := by omega
      rw [harith]
    rw [hdd]

/-- The sealed history kept by the builder is always the suffix of the full
emission history trimmed to the retention cap. -/
theorem runEmit_completed : ∀ (l : List Tick) (st : BuilderState) (E : List Candle),
    st.completed_candles = lastN max_candles E →
    (runEmit st l).1.completed_candles = lastN max_candles (E ++ (runEmit st l).2)
  | [], st, E, hE => by
    have hnil : runEmit st [] = (st, []) := rfl
    rw [hnil, List.append_nil]
    exact hE
  | tk :: rest, st, E, hE => by
    rw [runEmit_cons]
    cases hseal : (add_tick st tk).1 with
    | none =>
      have hcomp := add_tick_completed_none st tk hseal
      have ih := runEmit_completed rest (add_tick st tk).2 E (by rw [hcomp, hE])
      simpa using ih
    | some b =>
      have hcomp := add_tick_completed_some st tk b hseal
      have hstep : (add_tick st tk).2.completed_candles = lastN max_candles (E ++ [b]) := by
        rw [hcomp, hE]
        exact lastN_append_one E b
      have ih := runEmit_completed rest (add_tick st tk).2 (E ++ [b]) hstep
      simp only [Option.toList_some]
      rw [ih, List.append_assoc]

/-! ### C8: retention cap and FIFO eviction of sealed candles -/

/-- C8: for every tick sequence (in particular any producing more than 500
distinct buckets), the snapshot holds at most 500 sealed candles plus the
open one, and the sealed candles retained are exactly the most recently
sealed ones — the last-500 suffix of the full emission history (oldest
evicted first). -/
theorem c8_theorem (tf : Nat) (l : List Tick) :
    (run_builder tf l).completed_candles = lastN max_candles (sealed_emitted tf l) ∧
    (run_builder tf l).completed_candles.length ≤ max_candles ∧
    (get_candles (run_builder tf l) true).length ≤ max_candles + 1 := by
  have h := runEmit_completed l (init_builder tf) [] rfl
  have h1 : (run_builder tf l).completed_candles = lastN max_candles (sealed_emitted tf l) := by
    rw [run_builder, run_from, sealed_emitted]
    simpa using h
  refine ⟨h1, ?_, ?_⟩
  · rw [h1, lastN, List.length_drop]
    omega
  · rw [get_candles, List.length_append]
    have h2 : (run_builder tf l).completed_candles.length ≤ max_candles := by
      rw [h1, lastN, List.length_drop]
      omega
    have h3 : (if (true : Bool) then (run_builder tf l).current_candle.toList else []).length ≤ 1 := by
      cases (run_builder tf l).current_candle <;> simp
    omega

theorem c2_main (tf : Nat) : ∀ (l processed : List Tick) (st : BuilderState),
    List.Pairwise (fun a b : Int => a ≤ b)
      ((processed ++ l).map fun tk => get_candle_start tf tk.timestamp) →
    INVb tf processed st →
    (∀ bar ∈ (runEmit st l).2,
      bar.tick_count = (processed ++ l).countP
        (fun tk => decide (get_candle_start tf tk.timestamp = bar.timestamp))) ∧
    INVb tf (processed ++ l) (runEmit st l).1
  | [], processed, st, hmono, hinv => by
    have hnil : runEmit st [] = (st, []) := rfl
    rw [hnil, List.append_nil]
    exact ⟨fun bar hbar => absurd hbar (List.not_mem_nil bar), hinv⟩
  | tk :: rest, processed, st, hmono, hinv => by
    obtain ⟨tf0, cc, ccs, comp⟩ := st
    obtain ⟨htf, hinv2⟩ := hinv
    simp only at htf
    subst htf
    -- facts from the pairwise hypothesis
    have hmono' := hmono
    rw [List.map_append, List.pairwise_append] at hmono'
    obtain ⟨hmpro, hmrest, hmcross⟩ := hmono'
    have hcross : ∀ u ∈ processed,
        get_candle_start tf0 u.timestamp ≤ get_candle_start tf0 tk.timestamp := by
      intro u hu
      exact hmcross _ (List.mem_map_of_mem _ hu) _ (List.mem_map_of_mem _ (List.mem_cons_self tk rest))
    have hrestge : ∀ u ∈ rest,
        get_candle_start tf0 tk.timestamp ≤ get_candle_start tf0 u.timestamp := by
      intro u hu
      rw [List.map_cons] at hmrest
      exact (List.pairwise_cons.mp hmrest).1 _ (List.mem_map_of_mem _ hu)
    have hmono_next : ∀ (q : List Tick), q = processed ++ [tk] →
        List.Pairwise (fun a b : Int => a ≤ b)
          ((q ++ rest).map fun u => get_candle_start tf0 u.timestamp) := by
      intro q hq
      subst hq
      rw [List.append_assoc, List.singleton_append]
      exact hmono
    cases cc with
    | none =>
      cases ccs with
      | some s => exact hinv2.elim
      | none =>
        simp only at hinv2
        subst hinv2
        have hinv1 : INVb tf0 ([] ++ [tk]) (add_tick ⟨tf0, none, none, comp⟩ tk).2 := by
          simp only [add_tick]
          refine ⟨rfl, rfl, ?_, ⟨tk, by simp, rfl⟩, ?_⟩
          · simp [newCandle, List.countP_cons]
          · intro u hu
            simp only [List.nil_append, List.mem_singleton] at hu
            subst hu
            exact le_refl _
        have ih := c2_main tf0 rest ([] ++ [tk]) (add_tick ⟨tf0, none, none, comp⟩ tk).2
          (hmono_next _ rfl) hinv1
        have hseal : (add_tick (⟨tf0, none, none, comp⟩ : BuilderState) tk).1 = none := rfl
        have hemit : (runEmit (⟨tf0, none, none, comp⟩ : BuilderState) (tk :: rest)).2 =
            (runEmit (add_tick ⟨tf0, none, none, comp⟩ tk).2 rest).2 := by
          rw [runEmit_cons, hseal]
          rfl
        have hfst : (runEmit (⟨tf0, none, none, comp⟩ : BuilderState) (tk :: rest)).1 =
            (runEmit (add_tick ⟨tf0, none, none, comp⟩ tk).2 rest).1 := by
          rw [runEmit_cons]
        have hlisteq : ([] ++ [tk]) ++ rest = [] ++ tk :: rest := by simp
        constructor
        · intro bar hbar
          rw [hemit] at hbar
          have := ih.1 bar hbar
          rw [hlisteq] at this
          exact this
        · have := ih.2
          rw [hlisteq] at this
          rw [hfst]
          exact this
    | some cur =>
      cases ccs with
      | none => exact hinv2.elim
      | some s =>
        obtain ⟨hseq, hcount, ⟨tkw, htkw, htkweq⟩, hall⟩ := hinv2
        subst hseq
        by_cases hgt : get_candle_start tf0 tk.timestamp > cur.timestamp
        · -- rollover: seal `cur`, open a fresh candle
          have hinv1 : INVb tf0 (processed ++ [tk])
              (add_tick ⟨tf0, some cur, some cur.timestamp, comp⟩ tk).2 := by
            simp only [add_tick, if_pos hgt]
            refine ⟨rfl, rfl, ?_, ⟨tk, by simp, rfl⟩, ?_⟩
            · rw [List.countP_append]
              have hzero : processed.countP (fun u => decide (get_candle_start tf0 u.timestamp =
                  (newCandle (get_candle_start tf0 tk.timestamp) tk).timestamp)) = 0 := by
                rw [List.countP_eq_zero]
                intro u hu
                have := hall u hu
                simp only [newCandle, decide_eq_true_eq]
                omega
              rw [hzero]
              simp [newCandle, List.countP_cons]
            · intro u hu
              rcases List.mem_append.mp hu with h1 | h2
              · exact le_trans (hall u h1) (le_of_lt hgt)
              · rw [List.mem_singleton.mp h2]
                exact le_refl _
          have ih := c2_main tf0 rest (processed ++ [tk])
            (add_tick ⟨tf0, some cur, some cur.timestamp, comp⟩ tk).2 (hmono_next _ rfl) hinv1
          have hemit : (runEmit (⟨tf0, some cur, some cur.timestamp, comp⟩ : BuilderState)
              (tk :: rest)).2 =
              cur :: (runEmit (add_tick ⟨tf0, some cur, some cur.timestamp, comp⟩ tk).2 rest).2 := by
            rw [runEmit_cons]
            simp only [add_tick, if_pos hgt, Option.toList_some, List.singleton_append]
          have hfst : (runEmit (⟨tf0, some cur, some cur.timestamp, comp⟩ : BuilderState)
              (tk :: rest)).1 =
              (runEmit (add_tick ⟨tf0, some cur, some cur.timestamp, comp⟩ tk).2 rest).1 := by
            rw [runEmit_cons]
          have hlisteq : (processed ++ [tk]) ++ rest = processed ++ tk :: rest := by
            rw [List.append_assoc, List.singleton_append]
          constructor
          · intro bar hbar
            rw [hemit] at hbar
            rcases List.mem_cons.mp hbar with rfl | hbar'
            · -- the sealed candle: later ticks never revisit its bucket
              rw [List.countP_append, hcount]
              have hzero : (tk :: rest).countP (fun u => decide (get_candle_start tf0 u.timestamp =
                  bar.timestamp)) = 0 := by
                rw [List.countP_eq_zero]
                intro u hu
                simp only [decide_eq_true_eq]
                rcases List.mem_cons.mp hu with rfl | hu'
                · omega
                · have := hrestge u hu'
                  omega
              rw [hzero]
              omega
            · have := ih.1 bar hbar'
              rw [hlisteq] at this
              exact this
          · have := ih.2
            rw [hlisteq] at this
            rw [hfst]
            exact this
        · -- same-bucket (or backward) tick: in-place update
          have hcs_eq : get_candle_start tf0 tk.timestamp = cur.timestamp := by
            have h1 : cur.timestamp ≤ get_candle_start tf0 tk.timestamp := by
              rw [← htkweq]
              exact hcross tkw htkw
            omega
          have hinv1 : INVb tf0 (processed ++ [tk])
              (add_tick ⟨tf0, some cur, some cur.timestamp, comp⟩ tk).2 := by
            simp only [add_tick, if_neg hgt]
            refine ⟨rfl, rfl, ?_, ⟨tkw, List.mem_append_left _ htkw, htkweq⟩, ?_⟩
            · have hts' : (updateCandle cur tk).timestamp = cur.timestamp := rfl
              have htc' : (updateCandle cur tk).tick_count = cur.tick_count + 1 := rfl
              rw [List.countP_append, hts', htc', hcount]
              simp [List.countP_cons, hcs_eq]
            · intro u hu
              rcases List.mem_append.mp hu with h1 | h2
              · exact hall u h1
              · rw [List.mem_singleton.mp h2]
                simp only [updateCandle]
                omega
          have ih := c2_main tf0 rest (processed ++ [tk])
            (add_tick ⟨tf0, some cur, some cur.timestamp, comp⟩ tk).2 (hmono_next _ rfl) hinv1
          have hemit : (runEmit (⟨tf0, some cur, some cur.timestamp, comp⟩ : BuilderState)
              (tk :: rest)).2 =
              (runEmit (add_tick ⟨tf0, some cur, some cur.timestamp, comp⟩ tk).2 rest).2 := by
            rw [runEmit_cons]
            simp only [add_tick, if_neg hgt, Option.toList_none, List.nil_append]
          have hfst : (runEmit (⟨tf0, some cur, some cur.timestamp, comp⟩ : BuilderState)
              (tk :: rest)).1 =
              (runEmit (add_tick ⟨tf0, some cur, some cur.timestamp, comp⟩ tk).2 rest).1 := by
            rw [runEmit_cons]
          have hlisteq : (processed ++ [tk]) ++ rest = processed ++ tk :: rest := by
            rw [List.append_assoc, List.singleton_append]
          constructor
          · intro bar hbar
            rw [hemit] at hbar
            have := ih.1 bar hbar
            rw [hlisteq] at this
            exact this
          · have := ih.2
            rw [hlisteq] at this
            rw [hfst]
            exact this

/-! ### C2: tick_count of sealed candles counts the candle's bucket -/

/-- C2 (amended): for every tick sequence whose bucket sequence is
non-decreasing (in-order feeds), every sealed candle's `tick_count` equals
the number of ticks of the sequence whose bucket is that candle's bucket
start.  For arbitrary sequences the claim fails, because a backward tick is
merged into the current open candle (see the counterexample and C3). -/
theorem c2_theorem (tf : Nat) (l : List Tick)
    (hmono : List.Pairwise (fun a b : Int => a ≤ b)
      (l.map fun tk => get_candle_start tf tk.timestamp)) :
    ∀ bar ∈ sealed_emitted tf l,
      bar.tick_count = l.countP
        (fun tk => decide (get_candle_start tf tk.timestamp = bar.timestamp)) := by
  have h := (c2_main tf l [] (init_builder tf) (by simpa using hmono) ⟨rfl, rfl⟩).1
  simpa [sealed_emitted] using h

/-- C2 witness: on the in-order feed `ticksMono` the single sealed candle's
tick count matches its bucket's tick count. -/
theorem c2_witness : List.Pairwise (fun a b : Int => a ≤ b)
      (ticksMono.map fun tk => get_candle_start 60 tk.timestamp) ∧
    ∀ bar ∈ sealed_emitted 60 ticksMono,
      bar.tick_count = ticksMono.countP
        (fun tk => decide (get_candle_start 60 tk.timestamp = bar.timestamp)) :=
  ⟨by decide, c2_theorem 60 ticksMono (by decide)⟩

/-- C2 counterexample: feeding buckets 60, 0, 120 seals a candle for bucket
60 whose `tick_count` is 2, although only one tick of the sequence belongs
to bucket 60 — the backward tick at bucket 0 was merged into it. -/
theorem c2_counterexample : ∃ bar ∈ sealed_emitted 60 ticksBack,
    bar.tick_count ≠ ticksBack.countP
      (fun tk => decide (get_candle_start 60 tk.timestamp = bar.timestamp)) := by
  decide

/-! ### Per-second tick stores -/

theorem secTicks_length (a : Int) (n : Nat) : (secTicks a n).length = n := by
  simp [secTicks]

theorem mem_secTicks {a : Int} {n : Nat} {tk : Tick} (h : tk ∈ secTicks a n) :
    a ≤ tk.timestamp ∧ tk.timestamp < a + n := by
  rw [secTicks] at h
  rcases List.mem_map.mp h with ⟨i, hi, rfl⟩
  have := List.mem_range.mp hi
  constructor
  · simp only [mkT]
    omega
  · simp only [mkT]
    omega

theorem secTicks_pairwise (a : Int) (n : Nat) : (secTicks a n).Pairwise tsLT := by
  rw [secTicks]
  refine (List.pairwise_lt_range n).map _ ?_
  intro i j hij
  show (mkT (a + i) 100).timestamp < (mkT (a + j) 100).timestamp
  simp [mkT]
  omega

theorem secTicks_succ_last (a : Int) (n : Nat) :
    secTicks a (n + 1) = secTicks a n ++ [mkT (a + n) 100] := by
  rw [secTicks, List.range_succ, List.map_append]
  rfl

theorem foldl_max_le {m : Int} : ∀ (xs : List Int) (x : Int), x ≤ m → (∀ y ∈ xs, y ≤ m) →
    xs.foldl max x ≤ m
  | [], _, hx, _ => hx
  | y :: ys, x, hx, hall => by
    rw [List.foldl_cons]
    exact foldl_max_le ys (max x y) (max_le hx (hall y (List.mem_cons_self y ys)))
      fun z hz => hall z (List.mem_cons_of_mem y hz)

theorem foldl_min_eq {x : Int} : ∀ (xs : List Int), (∀ y ∈ xs, x ≤ y) → xs.foldl min x = x
  | [], _ => rfl
  | y :: ys, hall => by
    rw [List.foldl_cons, min_eq_left (hall y (List.mem_cons_self y ys))]
    exact foldl_min_eq ys fun z hz => hall z (List.mem_cons_of_mem y hz)

theorem maxTs?_append_last (l : List Tick) (u : Tick)
    (h : ∀ y ∈ l, y.timestamp ≤ u.timestamp) :
    maxTs? (l ++ [u]) = some u.timestamp := by
  cases l with
  | nil => rfl
  | cons t r =>
    rw [maxTs?]
    simp only [List.cons_append, List.map_cons, List.map_append, List.map_cons, List.map_nil]
    rw [List.foldl_append]
    simp only [List.foldl_cons, List.foldl_nil]
    have hle : (r.map Tick.timestamp).foldl max t.timestamp ≤ u.timestamp := by
      refine foldl_max_le _ _ (h t (List.mem_cons_self t r)) ?_
      intro y hy
      rcases List.mem_map.mp hy with ⟨v, hv, rfl⟩
      exact h v (List.mem_cons_of_mem t hv)
    rw [max_eq_right hle]

theorem minTs?_cons (t : Tick) (r : List Tick) (h : ∀ y ∈ r, t.timestamp ≤ y.timestamp) :
    minTs? (t :: r) = some t.timestamp := by
  rw [minTs?]
  simp only [List.map_cons]
  rw [foldl_min_eq _ ?_]
  intro y hy
  rcases List.mem_map.mp hy with ⟨v, hv, rfl⟩
  exact h v hv

theorem secTicks_cons (a : Int) (n : Nat) :
    secTicks a (n + 1) = mkT a 100 :: secTicks (a + 1) n := by
  rw [secTicks, List.range_succ_eq_map, List.map_cons, List.map_map]
  congr 1
  · congr 1
    omega
  · rw [secTicks]
    refine List.map_congr_left ?_
    intro i hi
    show mkT (a + (i + 1 : Nat)) 100 = mkT (a + 1 + i) 100
    congr 1
    push_cast
    omega

theorem foldl_maxTs_le {e : Int} : ∀ (r : List Tick) (x : Int), x ≤ e →
    (∀ u ∈ r, u.timestamp ≤ e) → r.foldl (fun a u => max a u.timestamp) x ≤ e
  | [], _, hx, _ => hx
  | u :: r, x, hx, hall => by
    rw [List.foldl_cons]
    exact foldl_maxTs_le r (max x u.timestamp)
      (max_le hx (hall u (List.mem_cons_self u r)))
      fun v hv => hall v (List.mem_cons_of_mem u hv)

theorem maxTs_cons_le (t : Tick) (r : List Tick) (e : Int)
    (h : ∀ u ∈ t :: r, u.timestamp ≤ e) : maxTs (t :: r) ≤ e := by
  rw [maxTs]
  exact foldl_maxTs_le r t.timestamp (h t (List.mem_cons_self t r))
    fun v hv => h v (List.mem_cons_of_mem t hv)

/-- On a cache none of whose rows reaches past the stream's end, the batch
loop never clips, never returns early, and produces batch sizes given by
`chunkLensAux`. -/
theorem yb_lens (endT : Int) (bs : Nat) (hbs : bs ≠ 0) :
    ∀ (fuel : Nat) (l : List Tick), (∀ u ∈ l, u.timestamp ≤ endT) →
      (yieldBatchesAux endT bs fuel l).1.map List.length = chunkLensAux bs fuel l.length ∧
      (yieldBatchesAux endT bs fuel l).2 = false
  | fuel, [], _ => by cases fuel <;> exact ⟨rfl, rfl⟩
  | 0, t :: r, _ => ⟨rfl, rfl⟩
  | fuel + 1, t :: r, hall => by
    have hbatch : ¬ maxTs ((t :: r).take bs) > endT := by
      rcases bs with _ | bs'
      · exact absurd rfl hbs
      · rw [List.take_cons (Nat.succ_pos bs')]
        exact not_lt.mpr (maxTs_cons_le _ _ _
          fun u hu => hall u (List.mem_cons.mpr (by
            rcases List.mem_cons.mp hu with h1 | h2
            · exact Or.inl h1
            · exact Or.inr (List.take_subset _ _ h2))))
    have ih := yb_lens endT bs hbs fuel ((t :: r).drop bs)
      fun u hu => hall u (List.drop_subset _ _ hu)
    rw [show (t :: r).length = r.length + 1 from rfl]
    simp only [yieldBatchesAux, chunkLensAux, if_neg hbs, if_neg hbatch]
    constructor
    · rw [List.map_cons, ih.1, List.length_take, List.length_drop]
      simp [List.length_cons]
    · exact ih.2

theorem streamAux_stop (endT : Int) (bs : Nat) (st : LoaderState) (current : Int)
    (h : ¬ current < endT) : ∀ fuel, streamAux endT bs fuel st current = []
  | 0 => rfl
  | fuel + 1 => by
    rw [streamAux, if_neg h]

theorem secTicks_D_bounds : ∀ u ∈ secTicks 34200 301, u.timestamp ≤ 34500 := by
  intro u hu
  have := mem_secTicks hu
  omega

theorem loadD_eq : load_cache_csv storeD 34200 34500 = storeDLoaded := by
  have hrel : relevantChunks storeD.chunks 34200 34500 = [chunkD] := by
    show List.filter _ [chunkD] = [chunkD]
    rw [List.filter_cons]
    rw [if_pos (by
      rw [show chunkD.start_timestamp = 34200 from rfl,
        show chunkD.end_timestamp = 34500 from rfl]
      decide)]
    rfl
  have hfilter : chunkD.ticks.filter (inRangeB 34200 34500) = secTicks 34200 301 := by
    rw [show chunkD.ticks = secTicks 34200 301 from rfl]
    refine List.filter_eq_self.mpr ?_
    intro tk htk
    have hb := mem_secTicks htk
    rw [inRangeB]
    simp only [Bool.and_eq_true, decide_eq_true_eq]
    omega
  have hsorted : List.Sorted tsLE (secTicks 34200 301) :=
    sorted_of_pairwise_tsLT (secTicks_pairwise 34200 301)
  have hmin : minTs? (secTicks 34200 301) = some 34200 := by
    rw [show (301 : Nat) = 300 + 1 from by norm_num, secTicks_cons]
    rw [minTs?_cons]
    · rfl
    · intro y hy
      have := mem_secTicks hy
      show (mkT 34200 100).timestamp ≤ y.timestamp
      rw [show (mkT 34200 100).timestamp = 34200 from rfl]
      omega
  have hmax : maxTs? (secTicks 34200 301) = some 34500 := by
    rw [show (301 : Nat) = 300 + 1 from by norm_num, secTicks_succ_last]
    rw [maxTs?_append_last]
    · rfl
    · intro y hy
      have hb := mem_secTicks hy
      have hts : (mkT ((34200 : Int) + (300 : Nat)) 100).timestamp = 34500 := by
        norm_num [mkT]
      rw [hts]
      omega
  rw [load_cache_csv]
  simp only [hrel]
  rw [if_neg (by decide)]
  simp only [List.map_cons, List.map_nil, hfilter, List.flatten_cons, List.flatten_nil,
    List.append_nil]
  rw [sortTs_eq_self hsorted]
  rw [List.take_of_length_le (by
    rw [secTicks_length, show storeD.cacheSize = 300000 from rfl]
    norm_num)]
  rw [hmin, hmax]
  rfl

/-- The batches of scenario D, by size: five full batches of 60 ticks and a
final single-tick batch holding the tick at the inclusive end bound. -/
theorem streamD_lens :
    (stream_ticks storeD 34200 34500 60).map List.length = [60, 60, 60, 60, 60, 1] := by
  rw [stream_ticks]
  rw [show (((34500 : Int) - 34200).toNat + 1) = 300 + 1 from by decide]
  rw [streamAux]
  rw [if_pos (by norm_num : (34200 : Int) < 34500)]
  rw [show min ((34200 : Int) + 3600) 34500 = 34500 from by norm_num]
  rw [loadD_eq]
  dsimp only
  rw [show storeDLoaded.cache = secTicks 34200 301 from rfl]
  have hne : (secTicks 34200 301).isEmpty = false := by
    rw [show (301 : Nat) = 300 + 1 from by norm_num, secTicks_cons]
    rfl
  rw [hne]
  rw [if_neg (by decide : ¬ (false = true))]
  have hyb := yb_lens 34500 60 (by norm_num) (secTicks 34200 301).length
    (secTicks 34200 301) secTicks_D_bounds
  rw [show yieldBatches 34500 60 (secTicks 34200 301) =
    yieldBatchesAux 34500 60 (secTicks 34200 301).length (secTicks 34200 301) from rfl] at *
  rw [hyb.2]
  rw [if_neg (by decide : ¬ (false = true))]
  rw [show storeDLoaded.cacheEnd = some 34500 from rfl]
  rw [show (some (34500 : Int)).getD 34500 + 1 = 34501 from by norm_num]
  rw [streamAux_stop 34500 60 storeDLoaded 34501 (by norm_num) 300]
  rw [List.append_nil, hyb.1, secTicks_length]
  decide

theorem wf_storeD : wfChunks storeD.chunks := by
  constructor
  · intro c hc
    rw [show storeD.chunks = [chunkD] from rfl] at hc
    rcases List.mem_singleton.mp hc with rfl
    refine ⟨?_, ?_, ?_⟩
    · rw [show chunkD.start_timestamp = 34200 from rfl,
        show chunkD.end_timestamp = 34500 from rfl]
      norm_num
    · rw [show chunkD.ticks = secTicks 34200 301 from rfl]
      exact (secTicks_pairwise 34200 301).chain'
    · intro t ht
      rw [show chunkD.ticks = secTicks 34200 301 from rfl] at ht
      have := mem_secTicks ht
      rw [show chunkD.start_timestamp = 34200 from rfl,
        show chunkD.end_timestamp = 34500 from rfl]
      omega
  · exact List.chain'_singleton _

/-! ### C4: scenario D of the stream driver -/

/-- C4 (amended): over a well-formed store holding exactly one tick per
second, the stream driver for `[09:30, 09:35]` with batch size 60 yields
five batches of 60 ticks followed by one final batch holding the single
tick at 09:35:00 — the range bounds are inclusive, so the tick at exactly
`end` is loaded and emitted — and then terminates. -/
theorem c4_theorem : wfChunks storeD.chunks ∧
    (stream_ticks storeD 34200 34500 60).map List.length = [60, 60, 60, 60, 60, 1] :=
  ⟨wf_storeD, streamD_lens⟩

/-- C4 counterexample: the produced sequence has six batches, not five, so
the claim "exactly 5 batches of 60 ticks each" is false on the code. -/
theorem c4_counterexample : ¬ ((stream_ticks storeD 34200 34500 60).length = 5 ∧
    ∀ b ∈ stream_ticks storeD 34200 34500 60, b.length = 60) := by
  rintro ⟨h5, _⟩
  have hmap := streamD_lens
  have hlen := congrArg List.length hmap
  rw [List.length_map] at hlen
  simp at hlen
  omega
